import Mathlib

/-!
Verification development for the wikilinks graph-exploration engine.

The Rust sources (`src/url.rs`, `src/node.rs`, `src/cursor.rs`, `src/app.rs`)
are embedded shallowly below: pure functions become Lean functions, the
stateful `App`/`Cursor` methods become explicit state-passing functions,
`HashMap`s become association lists (hash-order-sensitive data carries its
order explicitly), petgraph graphs become index-addressed lists of nodes plus
lists of ordered index pairs for edges, and external nondeterminism (the
random number generator, the force-layout integrator) is threaded in as
explicit parameters.
-/

namespace Wikilinks

/-- Association-list model of `std::collections::HashMap`: lookup returns the
binding of the key, if any.  Keys are kept unique by `alistInsert`. -/
def alistLookup {α β : Type} [DecidableEq α] : List (α × β) → α → Option β
  | [], _ => none
  | p :: rest, k => if p.1 = k then some p.2 else alistLookup rest k

/-- `HashMap::insert`: replaces the value of an existing key, otherwise adds a
new binding.  (Rust hash maps have no user-visible order; the list order here
stands for one concrete iteration order.) -/
def alistInsert {α β : Type} [DecidableEq α] (m : List (α × β)) (k : α) (v : β) :
    List (α × β) :=
  if m.any (fun p => decide (p.1 = k)) then
    m.map (fun p => if p.1 = k then (k, v) else p)
  else m ++ [(k, v)]

/-- `HashMap::remove`: drops the binding of the key. -/
def alistRemove {α β : Type} [DecidableEq α] (m : List (α × β)) (k : α) :
    List (α × β) :=
  m.filter (fun p => decide (p.1 ≠ k))

/-- Rust `str::contains` with a string pattern: substring search. -/
def strContainsStr (s pat : String) : Bool :=
  s.toList.tails.any (fun t => pat.toList.isPrefixOf t)

/-- Rust `str::ends_with` with a string pattern. -/
def strEndsWith (s pat : String) : Bool :=
  pat.toList.isSuffixOf s.toList

/-- Rust `str::contains` with a `char` pattern. -/
def strContainsChar (s : String) (c : Char) : Bool :=
  s.toList.any (fun x => decide (x = c))

/-- Rust `str::to_lowercase` (ASCII-relevant part, which is all the program
compares against). -/
def strToLower (s : String) : String :=
  (s.toList.map Char.toLower).asString

/-- `url::Type` from `src/url.rs` (named `UrlType` here because `Type` is a
reserved word in Lean). -/
inductive UrlType
  | Article
  | File
  | ExternalArticle
  | Other
deriving DecidableEq

/-- `url::Url` from `src/url.rs`: a parsed URL, represented by the components
the program reads.  `val` is the full serialization (`url::Url::as_str`, also
what `to_string` yields), `host` is `host_str()`, `path` is `path()`.  The
parsing algorithm itself lives in the external `url` crate and is not
modelled; functions receive already-parsed values. -/
structure Url where
  val : String
  host : Option String
  path : String
deriving DecidableEq

/-- `WIKIPEDIA_HOST` from `src/url.rs`. -/
def WIKIPEDIA_HOST : String := "wikipedia.org"

/-- `Url::is_wiki`: `self.val.host_str().unwrap().contains(WIKIPEDIA_HOST)`.
The `unwrap` of a missing host is a Rust panic; it is modelled by the default
`""` and every use below supplies a URL with a host. -/
def Url.is_wiki (u : Url) : Bool :=
  strContainsStr (u.host.getD "") WIKIPEDIA_HOST

/-- The `([^/.]+)$` tail of the article regex: a nonempty run of characters,
none of which is `/` or `.`, reaching the end of the string. -/
def wikiSegOk (cs : List Char) : Bool :=
  !cs.isEmpty && cs.all (fun c => decide (c ≠ '/') && decide (c ≠ '.'))

/-- Does `https://[a-z]{2}\.wikipedia\.org/wiki/([^/.]+)$` match starting at
this position and reaching the end of the string? -/
def wikiReMatchHere : List Char → Bool
  | 'h' :: 't' :: 't' :: 'p' :: 's' :: ':' :: '/' :: '/' :: a :: b :: rest =>
    a.isLower && b.isLower &&
      ".wikipedia.org/wiki/".toList.isPrefixOf rest &&
      wikiSegOk (rest.drop 20)
  | _ => false

/-- `Regex::is_match` for the article regex of `Url::is_wiki_article`: the
(un-anchored) pattern may start matching at any position. -/
def wikiReIsMatch (s : String) : Bool :=
  s.toList.tails.any wikiReMatchHere

/-- `Url::is_wiki_article`: the regex must match and the path must not contain
`':'`. -/
def Url.is_wiki_article (u : Url) : Bool :=
  if wikiReIsMatch u.val then !(strContainsChar u.path ':') else false

/-- `Url::is_file`: the serialization ends with one of the image extensions. -/
def Url.is_file (u : Url) : Bool :=
  strEndsWith u.val ".png" || strEndsWith u.val ".jpg" ||
    strEndsWith u.val ".jpeg" || strEndsWith u.val ".gif" ||
    strEndsWith u.val ".svg"

/-- `Url::is_external_article`: lowercased serialization contains `arxiv.org`
or `doi.org`. -/
def Url.is_external_article (u : Url) : Bool :=
  strContainsStr (strToLower u.val) "arxiv.org" ||
    strContainsStr (strToLower u.val) "doi.org"

/-- `Url.url_type` from `src/url.rs`: first matching classification wins. -/
def Url.url_type (u : Url) : UrlType :=
  if u.is_wiki_article then UrlType.Article
  else if u.is_file then UrlType.File
  else if u.is_external_article then UrlType.ExternalArticle
  else UrlType.Other

/-- A node of the egui_graphs `Graph<node::Node, (), Directed>`: the payload is
`node::Node` (whose single field is the `Url`), on top of which egui_graphs
keeps the screen location and the `selected`/`dragged` interaction flags.
Coordinates are modelled as integers; the embedded code only ever copies
them (random offsets and physics are threaded in as parameters). -/
structure GNode where
  payload : Url
  location : Int × Int
  selected : Bool
  dragged : Bool
deriving DecidableEq

/-- The inner `StableGraph` of the app graph.  Nodes are never removed, so a
node's index is its position in `nodes`; `edges` lists the directed
`(source, target)` pairs in insertion order.  petgraph allows parallel edges:
`add_edge` always appends. -/
structure AppGraph where
  nodes : List GNode
  edges : List (Nat × Nat)
deriving DecidableEq

/-- A node of the fdg_sim force graph: `fdg_sim::Node` carries a name (set to
the string of the graph index) and a 3D location. -/
structure SimNode where
  name : String
  location : Int × Int × Int
deriving DecidableEq

/-- The fdg_sim `ForceGraph` (a petgraph `Graph`): nodes by index, directed
edges in insertion order.  All edge weights are the constant `EDGE_WEIGHT`, so
the weight is not carried. -/
structure SimGraph where
  nodes : List SimNode
  edges : List (Nat × Nat)
deriving DecidableEq

/-- Modelled from the spec: `src/state.rs` is declared in `main.rs` but is not
among the provided sources.  The states are the variants matched on in
`src/app.rs`; the transition function `next` follows the spec's driving
context (§6): AwaitingRoot=`Input`, RootInvalid=`InputError`,
Expanding=`GraphAndLoading`, ExpansionFailed=`GraphAndLoadingError`,
Ready=`GraphLoaded`, Navigable=`Graph`. -/
inductive State
  | Input
  | InputError
  | GraphAndLoading
  | GraphAndLoadingError
  | GraphLoaded
  | Graph
deriving DecidableEq

/-- Modelled from the spec: the `Fork` argument of `state::next`. -/
inductive Fork
  | Success
  | Failure
deriving DecidableEq

/-- Modelled from the spec: `state::next`, the transition table of §6.
Submitting a valid root leaves the input state for loading, an invalid one
enters the input-error state (which returns to input on edit); loading ends in
the loaded state on success and in the loading-error state on a fatal fault;
the loaded state immediately becomes the navigable graph state.  Pairs the
spec does not mention keep the current state. -/
def next : State → Fork → State
  | State.Input, Fork.Success => State.GraphAndLoading
  | State.Input, Fork.Failure => State.InputError
  | State.InputError, Fork.Success => State.Input
  | State.GraphAndLoading, Fork.Success => State.GraphLoaded
  | State.GraphAndLoading, Fork.Failure => State.GraphAndLoadingError
  | State.GraphLoaded, Fork.Success => State.Graph
  | s, _ => s

/-- A fetch-kind error coming over the channel (`reqwest::Error` is only ever
logged, so its message is all that matters). -/
abbrev FetchErr : Type := String

deriving instance DecidableEq for Except

/-- An entry of `ActiveTasks = HashMap<NodeIndex, (Receiver<Result<Url, Error>>,
JoinHandle<()>)>`: `channel` holds the outcomes currently queued in the
receiver, oldest first (each worker appends over time; a poll consumes from
the front).  `finished` is what `JoinHandle::is_finished()` returns; it is
`true` both when the task completed normally and when it panicked, which the
ghost flag `faulted` records (the program never reads it — `is_finished` is
its only query on the handle). -/
structure TaskRecord where
  channel : List (Except FetchErr Url)
  finished : Bool
  faulted : Bool
deriving DecidableEq

/-- The `App` state from `src/app.rs` restricted to the engine fields (the
egui style and the egui event channel are presentation-only). -/
structure App where
  root_article_url : String
  state : State
  active_tasks : List (Nat × TaskRecord)
  g : AppGraph
  sim : SimGraph
  selected_node : Option Nat
  node_by_url : List (Url × Nat)
deriving DecidableEq

/-- A placeholder graph node standing for the value a Rust `unwrap` would
panic on; theorems that depend on a node supply hypotheses ruling it out. -/
def dummyGNode : GNode :=
  { payload := { val := "", host := none, path := "" }
    location := (0, 0), selected := false, dragged := false }

/-- `add_node_to_sim` from `src/app.rs`: appends an fdg node named after the
graph index, at `(loc.x, loc.y, 0)`, and returns the new sim index. -/
def add_node_to_sim (sim : SimGraph) (idx : Nat) (loc : Int × Int) :
    SimGraph × Nat :=
  ({ sim with
      nodes := sim.nodes ++ [{ name := toString idx, location := (loc.1, loc.2, 0) }] },
    sim.nodes.length)

/-- The closure passed to `egui_graphs::add_node_custom` in `add_node` and in
`handle_keys_input`: builds the bound egui node at the given location.
`add_node_custom` appends it, so the new graph index is the old node count. -/
def add_node_custom (g : AppGraph) (u : Url) (loc : Int × Int) : AppGraph × Nat :=
  ({ g with
      nodes := g.nodes ++ [{ payload := u, location := loc, selected := false, dragged := false }] },
    g.nodes.length)

/-- `add_node` from `src/app.rs`: random offset from the parent location
(threaded in as `off`), append to the egui graph, append to the sim graph, and
return the index `add_node_to_sim` returned (the computed color is dead code
in the source — it is never passed on). -/
def add_node (g : AppGraph) (sim : SimGraph) (loc_center : Int × Int) (u : Url)
    (off : Int × Int) : AppGraph × SimGraph × Nat :=
  let loc := (loc_center.1 + off.1, loc_center.2 + off.2)
  let gRes := add_node_custom g u loc
  let simRes := add_node_to_sim sim gRes.2 loc
  (gRes.1, simRes.1, simRes.2)

/-- `add_edge` from `src/app.rs`: `egui_graphs::add_edge` delegates to
petgraph's `StableGraph::add_edge` and `Simulation::get_graph_mut().add_edge`
is petgraph's `Graph::add_edge`; petgraph documents that both always insert a
fresh edge, parallel edges included, so both lists are appended to
unconditionally. -/
def add_edge (g : AppGraph) (sim : SimGraph) (start _end : Nat) :
    AppGraph × SimGraph :=
  ({ g with edges := g.edges ++ [(start, _end)] },
    { sim with edges := sim.edges ++ [(start, _end)] })

/-- The graph-side state `process_active_tasks` mutates: egui graph, sim
graph, URL index, plus the count of random draws made so far (each new node
consumes one draw from the `offs` stream standing for the RNG). -/
structure GraphSideState where
  g : AppGraph
  sim : SimGraph
  node_by_url : List (Url × Nat)
  rngCalls : Nat
deriving DecidableEq

/-- The `Ok(url)` arm of `process_active_tasks`: read the parent's location
(an `unwrap` in Rust — modelled by the dummy default, with validity supplied
by hypotheses where it matters), then either only add an edge to the node the
URL index already maps the link to, or create a node in both graphs, index
it, and add the edge to it. -/
def okStep (offs : Nat → Int × Int) (parent : Nat) (url : Url)
    (st : GraphSideState) : GraphSideState :=
  let parent_loc := (st.g.nodes.getD parent dummyGNode).location
  match alistLookup st.node_by_url url with
  | some idx =>
      let r := add_edge st.g st.sim parent idx
      { st with g := r.1, sim := r.2 }
  | none =>
      let r := add_node st.g st.sim parent_loc url (offs st.rngCalls)
      let idx := r.2.2
      let r2 := add_edge r.1 r.2.1 parent idx
      { g := r2.1, sim := r2.2,
        node_by_url := alistInsert st.node_by_url url idx,
        rngCalls := st.rngCalls + 1 }

/-- Accumulator of the `for_each` pass of `process_active_tasks`: the graph
side, the records with their (possibly consumed-from) channels, and the
`finished_tasks` list. -/
structure Drained where
  st : GraphSideState
  tasks : List (Nat × TaskRecord)
  finished : List Nat
deriving DecidableEq

/-- One iteration of the `for_each` in `process_active_tasks`: a single
`try_recv` on the record's channel.  A queued `Ok` mutates the graph, a
queued `Err` is only logged; an empty channel together with a finished handle
puts the task on the `finished_tasks` list.  (In Rust the receiver is
consumed in place; here the record list is rebuilt with the consumed
channels.) -/
def drainStep (offs : Nat → Int × Int) (d : Drained) (e : Nat × TaskRecord) :
    Drained :=
  match e.2.channel with
  | [] =>
      { d with
        tasks := d.tasks ++ [e],
        finished := if e.2.finished then d.finished ++ [e.1] else d.finished }
  | item :: rest =>
      let rec' : TaskRecord := { e.2 with channel := rest }
      match item with
      | Except.ok url =>
          { d with st := okStep offs e.1 url d.st, tasks := d.tasks ++ [(e.1, rec')] }
      | Except.error _ =>
          { d with tasks := d.tasks ++ [(e.1, rec')] }

/-- `process_active_tasks` from `src/app.rs`: one `try_recv` per active task,
then removal of the tasks observed finished.  Its `Result<(), reqwest::Error>`
return has no error path in the source — the function always ends in
`Ok(())` — which the always-`none` second component records. -/
def process_active_tasks (offs : Nat → Int × Int) (s : App) :
    App × Option FetchErr :=
  let d := s.active_tasks.foldl (drainStep offs)
      { st := { g := s.g, sim := s.sim, node_by_url := s.node_by_url, rngCalls := 0 },
        tasks := [], finished := [] }
  let tasks' := d.finished.foldl alistRemove d.tasks
  ({ s with g := d.st.g, sim := d.st.sim, node_by_url := d.st.node_by_url,
             active_tasks := tasks' }, none)

/-- `handle_state_graph_and_loading`: polls the active tasks; an error would
fork the state to failure, success with an emptied active set forks to
success, otherwise the state is kept. -/
def handle_state_graph_and_loading (offs : Nat → Int × Int) (s : App) : App :=
  let r := process_active_tasks offs s
  match r.2 with
  | some _ => { r.1 with state := next r.1.state Fork.Failure }
  | none =>
      if r.1.active_tasks.isEmpty then
        { r.1 with state := next r.1.state Fork.Success }
      else r.1

/-- `create_new_task`: spawns a retriever for the URL (the worker is external
and will push onto the channel over time; the record starts unfinished) and
inserts the record under the node index. -/
def create_new_task (s : App) (idx : Nat) (_url : Url) : App :=
  { s with
    active_tasks := alistInsert s.active_tasks idx
      { channel := [], finished := false, faulted := false } }

/-- The `Enter` branch of `handle_keys_input` from `src/app.rs`.
`url::Url::new` is the external parser, so its result is the `parsed`
argument; `loc` stands for the two random draws.  On a parse failure or a
non-wiki URL the state forks to failure.  Otherwise the egui graph is
replaced by a fresh one holding only the new root — while `node_by_url`,
`active_tasks` and the sim graph are carried over unchanged, exactly as in
the source — the root is indexed, appended to the sim, a task is spawned for
it, and the state forks to success. -/
def handle_keys_input_enter (parsed : Option Url) (loc : Int × Int) (s : App) :
    App :=
  match parsed with
  | some u =>
      if !u.is_wiki then { s with state := next s.state Fork.Failure }
      else
        let gRes := add_node_custom { nodes := [], edges := [] } u loc
        let simRes := add_node_to_sim s.sim gRes.2 loc
        let s1 := { s with g := gRes.1,
                           node_by_url := alistInsert s.node_by_url u gRes.2,
                           sim := simRes.1 }
        let s2 := create_new_task s1 gRes.2 u
        { s2 with state := next s2.state Fork.Success }
  | none => { s with state := next s.state Fork.Failure }

/-- Per-node body of `sync_graph_with_simulation`: a dragged node pushes its
own location into the sim point (with z = 0) and keeps its position;
otherwise it takes the sim point's x and y and the sim point keeps its own. -/
def syncNode (gn : GNode) (sn : SimNode) : GNode × SimNode :=
  if gn.dragged then
    (gn, { sn with location := (gn.location.1, gn.location.2, 0) })
  else
    ({ gn with location := (sn.location.1, sn.location.2.1) }, sn)

/-- `sync_graph_with_simulation` from `src/app.rs`: iterates over the graph's
node indices and reconciles each with the sim node of the same index (an
`unwrap` in Rust: theorems assume the sim covers the graph's indices).  Sim
nodes beyond the graph's length are untouched. -/
def sync_graph_with_simulation (g : AppGraph) (sim : SimGraph) :
    AppGraph × SimGraph :=
  let pairs := List.zipWith syncNode g.nodes sim.nodes
  ({ g with nodes := pairs.map Prod.fst },
   { sim with nodes := pairs.map Prod.snd ++ sim.nodes.drop g.nodes.length })

/-- petgraph `Graph::remove_edge`: a swap-remove — the edge at the last index
takes the removed index — and a no-op (returning `None`) on an out-of-range
index. -/
def swapRemoveEdge (es : List (Nat × Nat)) (i : Nat) : List (Nat × Nat) :=
  if i < es.length then (es.set i (es.getLastD (0, 0))).dropLast else es

/-- The single collection pass of `update_simulation` over `edge_indices()`:
the indices of the self-referential edges, in ascending index order. -/
def loopedEdgeIdxs (es : List (Nat × Nat)) : List Nat :=
  (List.range es.length).filter
    (fun i => decide ((es.getD i (0, 1)).1 = (es.getD i (0, 1)).2))

/-- The endpoints collected alongside (`looped_nodes` in the source, which
pairs each with `()`), in the same pass order. -/
def loopedNodeIdxs (es : List (Nat × Nat)) : List Nat :=
  (es.filter (fun e => decide (e.1 = e.2))).map Prod.fst

/-- The sim edge list the integration step actually runs on: the collected
loop-edge indices removed one by one with petgraph's swap-removing
`remove_edge`. -/
def preStepEdges (es : List (Nat × Nat)) : List (Nat × Nat) :=
  (loopedEdgeIdxs es).foldl swapRemoveEdge es

/-- `update_simulation` from `src/app.rs`: collect the looped edges, remove
them by their collected indices, run one integration step of size
`SIMULATION_DT` (the external fdg integrator only moves node locations, so it
is threaded in as `step`), then add one loop edge back per collected node. -/
def update_simulation (step : SimGraph → List SimNode) (sim : SimGraph) :
    SimGraph :=
  let looped_nodes := loopedNodeIdxs sim.edges
  let edges' := preStepEdges sim.edges
  let nodes' := step { sim with edges := edges' }
  { nodes := nodes', edges := edges' ++ looped_nodes.map (fun i => (i, i)) }

/-- Insertion into a sorted list, keeping earlier-inserted equal elements in
front. -/
def insertSorted (a : Nat) : List Nat → List Nat
  | [] => [a]
  | b :: rest => if a ≤ b then a :: b :: rest else b :: insertSorted a rest

/-- `Vec::sort`: a stable ascending sort (insertion sort here; on `Nat` keys
any stable sort computes the same list). -/
def sortNats (l : List Nat) : List Nat :=
  l.foldr insertSorted []

/-- `Vec::dedup`: removes consecutive duplicates (on a sorted list, all
duplicates). -/
def dedupAdj : List Nat → List Nat
  | [] => []
  | [a] => [a]
  | a :: b :: rest =>
      if a = b then dedupAdj (b :: rest) else a :: dedupAdj (b :: rest)

/-- `get_children_unique_inclusive_sorted` from `src/cursor.rs`: the outgoing
neighbors of `root` (petgraph iterates them newest-edge first), plus the root
itself, sorted and deduplicated. -/
def get_children_unique_inclusive_sorted (root : Nat) (g : AppGraph) :
    List Nat :=
  let children :=
    ((g.edges.filter (fun e => decide (e.1 = root))).map Prod.snd).reverse
  dedupAdj (sortNats (children ++ [root]))

/-- The `roots_tree`, a `petgraph::Graph<NodeIndex, (), Directed>`: tree-node
weights by tree index, and directed edges as pairs of tree indices in
insertion order. -/
structure RootsTree where
  nodes : List Nat
  edges : List (Nat × Nat)
deriving DecidableEq

/-- `Cursor` from `src/cursor.rs`.  The two hash maps are association lists;
`roots_by_element`'s values are `HashSet`s, carried as lists in one concrete
(unspecified, hash-dependent) iteration order. -/
structure Cursor where
  elements_by_root : List (Nat × List Nat)
  roots_by_element : List (Nat × List Nat)
  roots_tree : RootsTree
  position : Nat × Nat
deriving DecidableEq

/-- `Cursor::new`: a single root whose members are itself plus its current
children; every member maps back to that root; the roots tree holds the one
root; the position is (root, root). -/
def Cursor.new (root : Nat) (g : AppGraph) : Cursor :=
  let elements := get_children_unique_inclusive_sorted root g
  { elements_by_root := [(root, elements)]
    roots_by_element := elements.map (fun idx => (idx, [root]))
    roots_tree := { nodes := [root], edges := [] }
    position := (root, root) }

/-- `Cursor::add_root_to_tree`: appends the root as a tree node and adds an
edge from the tree node of the current position's root (found by weight; the
`unwrap` assumes it exists) to it. -/
def Cursor.add_root_to_tree (c : Cursor) (root : Nat) : Cursor :=
  let root_idx := c.roots_tree.nodes.length
  let nodes' := c.roots_tree.nodes ++ [root]
  let parent_idx := nodes'.findIdx (fun w => decide (c.position.1 = w))
  { c with roots_tree := { nodes := nodes', edges := c.roots_tree.edges ++ [(parent_idx, root_idx)] } }

/-- `Cursor::update`: recomputes the root's member list from the graph, adds
the root to every member's root set (inserting only if absent — `HashSet`
insertion — modelled by a guarded append), records the member list, links the
root into the tree under the current root, and moves the position to
(root, root). -/
def Cursor.update (c : Cursor) (root : Nat) (g : AppGraph) : Cursor :=
  let elements := get_children_unique_inclusive_sorted root g
  let rbe := elements.foldl
    (fun m idx =>
      match alistLookup m idx with
      | some val =>
          if val.contains root then m else alistInsert m idx (val ++ [root])
      | none => alistInsert m idx [root])
    c.roots_by_element
  let c1 := { c with roots_by_element := rbe,
                     elements_by_root := alistInsert c.elements_by_root root elements }
  let c2 := c1.add_root_to_tree root
  { c2 with position := (root, root) }

/-- The member-list successor as computed inline by `Cursor::next_child`:
skip up to the current element, skip it, take the next; an exhausted iterator
wraps to `first()` (whose `unwrap` theorems discharge by nonemptiness). -/
def nextInCycle (els : List Nat) (idx : Nat) : Nat :=
  match (els.dropWhile (fun el => decide (el ≠ idx))).drop 1 with
  | n :: _ => n
  | [] => els.headD 0

/-- The member-list predecessor as computed inline by `Cursor::prev_child`:
the same walk over the reversed iterator, wrapping to `last()`. -/
def prevInCycle (els : List Nat) (idx : Nat) : Nat :=
  match (els.reverse.dropWhile (fun el => decide (el ≠ idx))).drop 1 with
  | n :: _ => n
  | [] => els.getLastD 0

/-- `Cursor::next_child`: successor of the position inside the current root's
member list (the map index is an `unwrap`-like panic when the root is
unknown, modelled by the `[]` default), moving the position.  Returns the new
cursor and the returned element. -/
def Cursor.next_child (c : Cursor) : Cursor × Nat :=
  let root := c.position.1
  let idx := c.position.2
  let els := (alistLookup c.elements_by_root root).getD []
  let nxt := nextInCycle els idx
  ({ c with position := (root, nxt) }, nxt)

/-- `Cursor::prev_child`: predecessor of the position inside the current
root's member list, moving the position. -/
def Cursor.prev_child (c : Cursor) : Cursor × Nat :=
  let root := c.position.1
  let idx := c.position.2
  let els := (alistLookup c.elements_by_root root).getD []
  let prv := prevInCycle els idx
  ({ c with position := (root, prv) }, prv)

/-- `Cursor::next_root`: finds the tree index whose weight is the current
root, takes its first outgoing tree neighbor if any (petgraph iterates
neighbors newest-edge first), converts it to its weight via `node_weight`,
and moves the position to that root and the first entry of its member
list. -/
def Cursor.next_root (c : Cursor) : Cursor × Option Nat :=
  let curr := c.position.1
  let curr_rt_idx := c.roots_tree.nodes.findIdx (fun w => decide (curr = w))
  match (c.roots_tree.edges.filter (fun e => decide (e.1 = curr_rt_idx))).getLast? with
  | none => (c, none)
  | some e =>
      let nxt := c.roots_tree.nodes.getD e.2 0
      let els := (alistLookup c.elements_by_root nxt).getD []
      ({ c with position := (nxt, els.headD 0) }, some nxt)

/-- `Cursor::prev_root`: finds the tree index whose weight is the current
root and takes its first incoming tree neighbor if any.  Unlike `next_root`,
the source skips the `node_weight` conversion: the tree index itself is used
as the new root and returned. -/
def Cursor.prev_root (c : Cursor) : Cursor × Option Nat :=
  let curr := c.position.1
  let curr_rt_idx := c.roots_tree.nodes.findIdx (fun w => decide (curr = w))
  match (c.roots_tree.edges.filter (fun e => decide (e.2 = curr_rt_idx))).getLast? with
  | none => (c, none)
  | some e =>
      let nxt := e.1
      let els := (alistLookup c.elements_by_root nxt).getD []
      ({ c with position := (nxt, els.headD 0) }, some nxt)

/-- `Cursor::roots`: the root set of an element, as an iteration-order
list. -/
def Cursor.roots (c : Cursor) (idx : Nat) : Option (List Nat) :=
  alistLookup c.roots_by_element idx

/-- `Cursor::sticky_root`: a sole root is returned; among several the current
root is kept when present; otherwise the set's first element (`roots[0]` in
iteration order) is returned. -/
def Cursor.sticky_root (c : Cursor) (idx : Nat) : Option Nat :=
  match c.roots idx with
  | none => none
  | some roots =>
      if roots.length = 1 then some (roots.getD 0 0)
      else
        let root := c.position.1
        if roots.contains root then some root
        else some (roots.getD 0 0)

/-- The loop body of `select_next_article` from `src/app.rs`, with explicit
fuel: call `next_child`, stop when the reached node's URL classifies as an
Article, otherwise continue.  The source's `loop` has no bound, so exhausted
fuel (`none`) means the loop has not terminated within that many iterations. -/
def select_next_article_go (g : AppGraph) : Cursor → Nat → Option (Cursor × Nat)
  | _, 0 => none
  | c, fuel + 1 =>
      let r := c.next_child
      if (g.nodes.getD r.2 dummyGNode).payload.url_type = UrlType.Article then
        some r
      else select_next_article_go g r.1 fuel

/-- The loop body of `select_prev_article` from `src/app.rs`, with explicit
fuel, mirroring `select_next_article_go` over `prev_child`. -/
def select_prev_article_go (g : AppGraph) : Cursor → Nat → Option (Cursor × Nat)
  | _, 0 => none
  | c, fuel + 1 =>
      let r := c.prev_child
      if (g.nodes.getD r.2 dummyGNode).payload.url_type = UrlType.Article then
        some r
      else select_prev_article_go g r.1 fuel

/-! ## Helper lemmas and shared concrete fixtures -/

theorem getElem?_some_lt {α : Type} {l : List α} {i : Nat} {a : α}
    (h : l[i]? = some a) : i < l.length := by
  by_contra hn
  rw [List.getElem?_eq_none (Nat.le_of_not_lt hn)] at h
  cases h

/-- A wiki article URL used as concrete input. -/
def urlA : Url :=
  { val := "https://en.wikipedia.org/wiki/A", host := some "en.wikipedia.org",
    path := "/wiki/A" }

/-- A second wiki article URL used as concrete input. -/
def urlB : Url :=
  { val := "https://en.wikipedia.org/wiki/B", host := some "en.wikipedia.org",
    path := "/wiki/B" }

/-- A third wiki article URL used as concrete input. -/
def urlC : Url :=
  { val := "https://en.wikipedia.org/wiki/C", host := some "en.wikipedia.org",
    path := "/wiki/C" }

/-- A file (image) URL used as concrete input; it classifies as `File`. -/
def urlPng : Url :=
  { val := "https://en.wikipedia.org/a.png", host := some "en.wikipedia.org",
    path := "/a.png" }

/-- A second file URL used as concrete input; it classifies as `File`. -/
def urlPng2 : Url :=
  { val := "https://en.wikipedia.org/b.png", host := some "en.wikipedia.org",
    path := "/b.png" }

/-! ## C5: drag authority in `sync_graph_with_simulation` -/

/-- C5.  Drag authority in reconciliation: for every node present in both the
graph and the simulation, exactly one sync direction applies — a dragged
(manually positioned) node keeps its graph position, which is copied into the
simulation point with z = 0; a non-dragged node has its graph position
overwritten with the simulation point's x,y while the simulation point stays
unchanged. -/
theorem sync_drag_authority (g : AppGraph) (sim : SimGraph) (i : Nat)
    (gn : GNode) (sn : SimNode)
    (hg : g.nodes[i]? = some gn) (hs : sim.nodes[i]? = some sn) :
    (gn.dragged = true →
        (sync_graph_with_simulation g sim).1.nodes[i]? = some gn ∧
        (sync_graph_with_simulation g sim).2.nodes[i]? =
          some { sn with location := (gn.location.1, gn.location.2, 0) }) ∧
    (gn.dragged = false →
        (sync_graph_with_simulation g sim).1.nodes[i]? =
          some { gn with location := (sn.location.1, sn.location.2.1) } ∧
        (sync_graph_with_simulation g sim).2.nodes[i]? = some sn) := by
  have hgl := getElem?_some_lt hg
  have hsl := getElem?_some_lt hs
  have hpair : (List.zipWith syncNode g.nodes sim.nodes)[i]? =
      some (syncNode gn sn) := by
    rw [List.getElem?_zipWith, hg, hs]
  have hlenp : i < (List.zipWith syncNode g.nodes sim.nodes).length := by
    rw [List.length_zipWith]
    exact lt_min hgl hsl
  have h1 : (sync_graph_with_simulation g sim).1.nodes[i]? =
      some (syncNode gn sn).1 := by
    show ((List.zipWith syncNode g.nodes sim.nodes).map Prod.fst)[i]? = _
    rw [List.getElem?_map, hpair]
    rfl
  have h2 : (sync_graph_with_simulation g sim).2.nodes[i]? =
      some (syncNode gn sn).2 := by
    show ((List.zipWith syncNode g.nodes sim.nodes).map Prod.snd ++
        sim.nodes.drop g.nodes.length)[i]? = _
    rw [List.getElem?_append]
    rw [List.length_map]
    rw [if_pos hlenp]
    rw [List.getElem?_map, hpair]
    rfl
  obtain ⟨pl, loc, sel, dr⟩ := gn
  constructor
  · intro hd
    subst hd
    simp only [syncNode, if_true] at h1 h2
    exact ⟨h1, h2⟩
  · intro hd
    subst hd
    simp only [syncNode, Bool.false_eq_true, if_false] at h1 h2
    exact ⟨h1, h2⟩

/-- Graph fixture for the C5 witness: node 0 dragged, node 1 not. -/
def gC5 : AppGraph :=
  { nodes :=
      [ { payload := urlA, location := (1, 2), selected := false, dragged := true },
        { payload := urlB, location := (3, 4), selected := false, dragged := false } ],
    edges := [] }

/-- Sim fixture for the C5 witness. -/
def simC5 : SimGraph :=
  { nodes :=
      [ { name := "0", location := (10, 20, 30) },
        { name := "1", location := (40, 50, 60) } ],
    edges := [] }

/-- Witness for C5 at a concrete graph: the dragged node 0 keeps (1,2) and the
non-dragged node 1 takes the sim's (40,50). -/
theorem sync_drag_authority_witness :
    (sync_graph_with_simulation gC5 simC5).1.nodes[0]? =
        some { payload := urlA, location := (1, 2), selected := false, dragged := true } ∧
    (sync_graph_with_simulation gC5 simC5).1.nodes[1]? =
        some { payload := urlB, location := (40, 50), selected := false, dragged := false } := by
  constructor
  · exact ((sync_drag_authority gC5 simC5 0
      { payload := urlA, location := (1, 2), selected := false, dragged := true }
      { name := "0", location := (10, 20, 30) } rfl rfl).1 rfl).1
  · exact ((sync_drag_authority gC5 simC5 1
      { payload := urlB, location := (3, 4), selected := false, dragged := false }
      { name := "1", location := (40, 50, 60) } rfl rfl).2 rfl).1

/-! ## C6: self-loop handling in `update_simulation` -/

theorem mem_swapRemoveEdge {es : List (Nat × Nat)} {i : Nat} {a : Nat × Nat}
    (h : a ∈ swapRemoveEdge es i) : a ∈ es := by
  unfold swapRemoveEdge at h
  by_cases hi : i < es.length
  · rw [if_pos hi] at h
    have h2 := List.dropLast_subset _ h
    rcases List.mem_or_eq_of_mem_set h2 with h3 | h3
    · exact h3
    · have hne : es ≠ [] := by
        intro he
        rw [he] at hi
        exact Nat.not_lt_zero i hi
      rw [h3, List.getLastD_eq_getLast?]
      rw [List.getLast?_eq_getLast es hne]
      exact List.getLast_mem hne
  · rw [if_neg hi] at h
    exact h

theorem mem_foldl_swapRemoveEdge {idxs : List Nat} {es : List (Nat × Nat)}
    {a : Nat × Nat} (h : a ∈ idxs.foldl swapRemoveEdge es) : a ∈ es := by
  induction idxs generalizing es with
  | nil => exact h
  | cons j rest ih => exact mem_swapRemoveEdge (ih h)

theorem mem_loopedNodeIdxs {es : List (Nat × Nat)} {i : Nat} :
    i ∈ loopedNodeIdxs es ↔ (i, i) ∈ es := by
  unfold loopedNodeIdxs
  constructor
  · intro h
    obtain ⟨e, he, hfst⟩ := List.mem_map.mp h
    have hmem := List.mem_filter.mp he
    have heq : e.1 = e.2 := by
      have := hmem.2
      simpa using this
    have : e = (i, i) := by
      obtain ⟨x, y⟩ := e
      simp only at hfst heq
      rw [hfst] at heq ⊢
      rw [← heq]
    rw [← this]
    exact hmem.1
  · intro h
    exact List.mem_map.mpr ⟨(i, i), List.mem_filter.mpr ⟨h, by simp⟩, rfl⟩

/-- C6 (amended).  The self-loop edge set, as a set of node indices, is the
same before and after `update_simulation`: every node with a self-loop
beforehand gets one re-added, and no new self-loop node appears.  (The
stronger per-edge claim fails — see the counterexample — because the
pre-collected loop indices are removed with petgraph's swap-removing
`remove_edge`, which can relocate a trailing loop edge out of its collected
index.) -/
theorem update_simulation_loop_node_set (step : SimGraph → List SimNode)
    (sim : SimGraph) (i : Nat) :
    ((i, i) ∈ (update_simulation step sim).edges) ↔ ((i, i) ∈ sim.edges) := by
  show (i, i) ∈ preStepEdges sim.edges ++
      (loopedNodeIdxs sim.edges).map (fun j => (j, j)) ↔ _
  rw [List.mem_append]
  constructor
  · rintro (h | h)
    · exact mem_foldl_swapRemoveEdge h
    · obtain ⟨j, hj, he⟩ := List.mem_map.mp h
      have hji : j = i := by
        injection he with h1 h2
      rw [hji] at hj
      exact mem_loopedNodeIdxs.mp hj
  · intro h
    right
    exact List.mem_map.mpr ⟨i, mem_loopedNodeIdxs.mpr h, rfl⟩

/-- Sim fixture for the C6 counterexample: two self-loops with a plain edge
between them, the second loop sitting at the last edge index. -/
def simC6 : SimGraph :=
  { nodes := [], edges := [(0, 0), (0, 1), (1, 1)] }

/-- Counterexample to C6 as stated: removing the collected loop indices
`[0, 2]` with swap-removal relocates edge `(1,1)` to index 0, so it survives
into the integration step (it is NOT removed before the physics integration),
and the restoration pass then adds a second copy of it (the re-added loops
are not exactly the removed ones: the count of `(1,1)` grows from 1 to 2).
The node-index set of self-loops is nevertheless preserved (`{0, 1}`). -/
theorem update_simulation_loop_counterexample :
    (1, 1) ∈ preStepEdges simC6.edges ∧
    (update_simulation (fun s => s.nodes) simC6).edges.count (1, 1) = 2 ∧
    simC6.edges.count (1, 1) = 1 := by decide

/-! ## C2: reset postcondition of `handle_keys_input` -/

/-- Shorthand for a default-placed graph node. -/
def mkGN (u : Url) : GNode :=
  { payload := u, location := (0, 0), selected := false, dragged := false }

/-- Shorthand for a default-placed sim node. -/
def mkSN (n : String) : SimNode :=
  { name := n, location := (0, 0, 0) }

/-- Pre-reset state for C2: the graph of a previous exploration (4 nodes), a
URL-index entry for the old root, and an outstanding fetch record keyed to
the old node index 3, while the user is back on the input surface submitting
a new root. -/
def appC2 : App :=
  { root_article_url := "https://en.wikipedia.org/wiki/B",
    state := State.Input,
    active_tasks := [(3, { channel := [], finished := false, faulted := false })],
    g := { nodes := [mkGN urlA, mkGN urlC, mkGN urlC, mkGN urlC], edges := [(0, 1), (0, 2), (0, 3)] },
    sim := { nodes := [mkSN "0", mkSN "1", mkSN "2", mkSN "3"], edges := [(0, 1), (0, 2), (0, 3)] },
    selected_node := none,
    node_by_url := [(urlA, 0)] }

/-- The post-reset state one tick later: same as what `handle_keys_input`
left behind, except the discarded worker of old node 3 has by now pushed a
discovery onto its still-held channel. -/
def appC2post : App :=
  let r := handle_keys_input_enter (some urlB) (7, 9) appC2
  { r with active_tasks :=
      [(3, { channel := [Except.ok urlC], finished := true, faulted := false }),
       (0, { channel := [], finished := false, faulted := false })] }

/-- C2 is violated by the code: submitting a new valid root clears only the
egui graph.  The URL index keeps the stale pre-reset entry (2 bindings, not
exactly the new link), the pre-reset fetch record keyed to old index 3
survives (2 active records, not 0), the sim graph keeps its pre-reset nodes,
and on the next poll the discarded worker's result is consumed and applied
to the post-reset state (a new node and an edge from stale parent index 3
appear; in the real program the corresponding `unwrap`/`add_edge` on the
1-node graph panics instead of the result being detected and dropped). -/
theorem reset_keeps_stale_state :
    (handle_keys_input_enter (some urlB) (7, 9) appC2).g.nodes.length = 1 ∧
    (handle_keys_input_enter (some urlB) (7, 9) appC2).g.edges = [] ∧
    (handle_keys_input_enter (some urlB) (7, 9) appC2).node_by_url =
      [(urlA, 0), (urlB, 0)] ∧
    (handle_keys_input_enter (some urlB) (7, 9) appC2).active_tasks.length = 2 ∧
    alistLookup (handle_keys_input_enter (some urlB) (7, 9) appC2).active_tasks 3 =
      some { channel := [], finished := false, faulted := false } ∧
    (handle_keys_input_enter (some urlB) (7, 9) appC2).sim.nodes.length = 5 ∧
    (handle_keys_input_enter (some urlB) (7, 9) appC2).state = State.GraphAndLoading ∧
    (3, 5) ∈ (process_active_tasks (fun _ => (0, 0)) appC2post).1.g.edges ∧
    (process_active_tasks (fun _ => (0, 0)) appC2post).1.g.nodes.length = 2 := by
  decide

/-! ## C4: worker faults are not surfaced -/

/-- State for C4: a single expansion whose worker's completion handle reports
an internal fault (`faulted`; `JoinHandle::is_finished()` is `true` for a
panicked task just as for a normal one) and whose channel is drained
empty. -/
def appC4 : App :=
  { root_article_url := "",
    state := State.GraphAndLoading,
    active_tasks := [(0, { channel := [], finished := true, faulted := true })],
    g := { nodes := [mkGN urlA], edges := [] },
    sim := { nodes := [mkSN "0"], edges := [] },
    selected_node := none,
    node_by_url := [(urlA, 0)] }

/-- C4 is violated by the code: a worker fault is indistinguishable from
normal completion.  `process_active_tasks` has no error path (its second
component is always `none`, so the `Err` branch of
`handle_state_graph_and_loading` — the only road to the failure state — is
dead code), and polling the faulted record removes it and transitions the
loading state to `GraphLoaded` (success), not to `GraphAndLoadingError`. -/
theorem fault_not_surfaced :
    (process_active_tasks (fun _ => (0, 0)) appC4).2 = none ∧
    handle_state_graph_and_loading (fun _ => (0, 0)) appC4 =
      { appC4 with active_tasks := [], state := State.GraphLoaded } := by
  decide

/-! ## C8: `sticky_root` resolution -/

/-- Cursor fixture for C8: element 7 belongs to the two roots 3 and 1, in
hash-set iteration order `[3, 1]` (Rust's `HashSet` iteration order is
unspecified and SipHash-seeded, so any order is a possible run); the current
root is 0, which is not among them. -/
def cursorC8 : Cursor :=
  { elements_by_root := [(0, [0]), (1, [1, 7]), (3, [3, 7])],
    roots_by_element := [(0, [0]), (1, [1]), (3, [3]), (7, [3, 1])],
    roots_tree := { nodes := [0, 1, 3], edges := [(0, 1), (0, 2)] },
    position := (0, 0) }

/-- Counterexample to C8 as stated: with root set `{3, 1}` iterated as
`[3, 1]` and a current root outside it, `sticky_root` returns 3 — the first
element of the iteration order — although root 1 with the lower index also
contains the node, so the fallback is not "the lowest root index" (nor any
function of the set alone). -/
theorem sticky_root_counterexample :
    cursorC8.sticky_root 7 = some 3 ∧
    (1 : Nat) ∈ (cursorC8.roots 7).getD [] ∧ (1 : Nat) < 3 := by decide

/-- C8 (amended).  The sticky rule: a sole root is returned; among several
the current root is kept when it is one of them; otherwise `roots[0]` — the
first root in the set's (unspecified) iteration order, not necessarily the
lowest index — is returned.  (`hne` rules out the empty set, on which the
Rust `roots[0]` indexing would panic.) -/
theorem sticky_root_cases (c : Cursor) (idx : Nat) (rs : List Nat)
    (h : c.roots idx = some rs) (_hne : rs ≠ []) :
    (rs.length = 1 → c.sticky_root idx = some (rs.getD 0 0)) ∧
    (rs.length ≠ 1 → c.position.1 ∈ rs → c.sticky_root idx = some c.position.1) ∧
    (rs.length ≠ 1 → c.position.1 ∉ rs → c.sticky_root idx = some (rs.getD 0 0)) := by
  have hred : c.sticky_root idx =
      if rs.length = 1 then some (rs.getD 0 0)
      else if rs.contains c.position.1 then some c.position.1
      else some (rs.getD 0 0) := by
    unfold Cursor.sticky_root
    rw [h]
  refine ⟨?_, ?_, ?_⟩
  · intro h1
    rw [hred, if_pos h1]
  · intro h1 h2
    have hc : rs.contains c.position.1 = true := by simpa using h2
    rw [hred, if_neg h1, if_pos hc]
  · intro h1 h2
    have hc : rs.contains c.position.1 = false := by simp [h2]
    rw [hred, if_neg h1, hc]
    rw [if_neg]
    intro hx
    cases hx

/-- Witness for C8 (amended) at the concrete cursor: the fallback case
applied to element 7 yields the iteration-order head 3. -/
theorem sticky_root_cases_witness :
    cursorC8.sticky_root 7 = some (([3, 1] : List Nat).getD 0 0) :=
  (sticky_root_cases cursorC8 7 [3, 1] (by decide) (by decide)).2.2
    (by decide) (by decide)

/-! ## C10: `next_root` vs `prev_root` destinations -/

/-- Cursor fixture for C10: roots with graph indices 0, 5, 9 sit at tree
indices 0, 1, 2; root 5 was expanded from 0 and root 9 from 5.  Member lists
are sorted by index; root 5's members include node 2 (deduplicated from an
earlier expansion, so lower than the root itself) and root 9's include
node 7. -/
def cursorC10 : Cursor :=
  { elements_by_root := [(0, [0, 5]), (5, [2, 5, 9]), (9, [7, 9])],
    roots_by_element := [(0, [0]), (5, [0, 5]), (2, [5]), (9, [5, 9]), (7, [9])],
    roots_tree := { nodes := [0, 5, 9], edges := [(0, 1), (1, 2)] },
    position := (5, 5) }

/-- C10 evaluated at the failing input.  `next_root` behaves as the claim
says: from root 5 it moves to destination root 9, places the cursor on the
lowest member 7 (which is not the root node 9 itself), and returns 9.  But
`prev_root` from root 9 skips the `node_weight` conversion its sibling
performs: instead of destination root 5 it returns the roots-tree-internal
index 1, moves the position to (1, 0) (the member-list lookup of the
nonexistent root 1 — a panic in Rust), and 1 is not a root at all. -/
theorem root_jump_destination :
    cursorC10.next_root = ({ cursorC10 with position := (9, 7) }, some 9) ∧
    (7 : Nat) ≠ 9 ∧
    (cursorC10.next_root).1.prev_root =
      ({ (cursorC10.next_root).1 with position := (1, 0) }, some 1) ∧
    cursorC10.roots_tree.nodes.getD 1 0 = 5 ∧
    (1 : Nat) ∉ cursorC10.roots_tree.nodes := by
  decide

/-! ## C7: cyclic wrap of `next_child` / `prev_child` -/

theorem dropWhile_ne_nodup {els : List Nat} {i x : Nat}
    (hnd : els.Nodup) (hx : els[i]? = some x) :
    els.dropWhile (fun el => decide (el ≠ x)) = els.drop i := by
  induction els generalizing i with
  | nil => cases hx
  | cons a t ih =>
      rcases List.nodup_cons.mp hnd with ⟨ha, hnt⟩
      cases i with
      | zero =>
          have hax : a = x := by
            simpa using hx
          subst hax
          simp [List.dropWhile_cons]
      | succ i =>
          have hx' : t[i]? = some x := by simpa using hx
          have hxt : x ∈ t := List.getElem?_mem hx'
          have hax : a ≠ x := fun he => ha (he ▸ hxt)
          rw [List.dropWhile_cons]
          rw [if_pos (by simp [hax])]
          rw [ih hnt hx']
          rfl

theorem nextInCycle_at (els : List Nat) (i x : Nat)
    (hnd : els.Nodup) (hx : els[i]? = some x) :
    nextInCycle els x = els.getD ((i + 1) % els.length) 0 := by
  have hlen : i < els.length := getElem?_some_lt hx
  unfold nextInCycle
  rw [dropWhile_ne_nodup hnd hx]
  rw [List.drop_drop]
  rcases hdrop : els.drop (i + 1) with _ | ⟨y, rest⟩
  · have hle : els.length ≤ i + 1 := by
      have := List.length_drop (i + 1) els
      rw [hdrop] at this
      simp at this
      omega
    have hlen1 : els.length = i + 1 := by omega
    rw [hlen1, Nat.mod_self]
    rw [List.headD_eq_head?, List.getD_eq_getElem?_getD]
    rw [List.head?_eq_getElem?]
  · have hy : els[i + 1]? = some y := by
      have h0 : (els.drop (i + 1))[0]? = some y := by rw [hdrop]; simp
      rw [List.getElem?_drop] at h0
      simpa using h0
    have hlt : i + 1 < els.length := getElem?_some_lt hy
    rw [Nat.mod_eq_of_lt hlt]
    rw [List.getD_eq_getElem?_getD, hy]
    rfl

theorem nextInCycle_iterate (els : List Nat) (hnd : els.Nodup) :
    ∀ (k i x : Nat), els[i]? = some x →
      (nextInCycle els)^[k] x = els.getD ((i + k) % els.length) 0 := by
  intro k
  induction k with
  | zero =>
      intro i x hx
      have hlen := getElem?_some_lt hx
      rw [Function.iterate_zero_apply]
      rw [Nat.mod_eq_of_lt (show i + 0 < els.length by omega)]
      rw [List.getD_eq_getElem?_getD]
      rw [show i + 0 = i from rfl, hx]
      rfl
  | succ k ih =>
      intro i x hx
      have hlen := getElem?_some_lt hx
      have hpos : 0 < els.length := by omega
      rw [Function.iterate_succ_apply]
      rw [nextInCycle_at els i x hnd hx]
      have hlt : (i + 1) % els.length < els.length := Nat.mod_lt _ hpos
      have hx2 : els[(i + 1) % els.length]? =
          some (els.getD ((i + 1) % els.length) 0) := by
        rw [List.getD_eq_getElem?_getD, List.getElem?_eq_getElem hlt]
        rfl
      rw [ih ((i + 1) % els.length) _ hx2]
      rw [Nat.mod_add_mod]
      have harith : i + 1 + k = i + (k + 1) := by omega
      rw [harith]

theorem prevInCycle_eq_reverse (els : List Nat) (x : Nat) :
    prevInCycle els x = nextInCycle els.reverse x := by
  unfold prevInCycle nextInCycle
  rcases h : (els.reverse.dropWhile (fun el => decide (el ≠ x))).drop 1 with _ | ⟨n, rest⟩
  · rw [List.headD_eq_head?, List.head?_reverse, List.getLastD_eq_getLast?]
  · rfl

theorem next_child_position (c : Cursor) (root x : Nat) (els : List Nat)
    (hlook : alistLookup c.elements_by_root root = some els)
    (hpos : c.position = (root, x)) :
    c.next_child = ({ c with position := (root, nextInCycle els x) },
      nextInCycle els x) := by
  simp only [Cursor.next_child]
  rw [hpos, hlook]
  rfl

theorem prev_child_position (c : Cursor) (root x : Nat) (els : List Nat)
    (hlook : alistLookup c.elements_by_root root = some els)
    (hpos : c.position = (root, x)) :
    c.prev_child = ({ c with position := (root, prevInCycle els x) },
      prevInCycle els x) := by
  simp only [Cursor.prev_child]
  rw [hpos, hlook]
  rfl

/-- C7.  Cyclic wrap: starting at any member `x` (at index `i`) of the
current root's member list, `els.length` successive `next_child` calls return
the cursor to `x`, and so do `els.length` successive `prev_child` calls.
(Member lists are deduplicated by construction, whence the `Nodup`
hypothesis; a list with a looked-up element is nonempty, so N ≥ 1.) -/
theorem cyclic_wrap (c : Cursor) (root x i : Nat) (els : List Nat)
    (hlook : alistLookup c.elements_by_root root = some els)
    (hnd : els.Nodup) (hx : els[i]? = some x)
    (hpos : c.position = (root, x)) :
    ((fun cur => (Cursor.next_child cur).1)^[els.length] c).position = (root, x) ∧
    ((fun cur => (Cursor.prev_child cur).1)^[els.length] c).position = (root, x) := by
  have hlen : i < els.length := getElem?_some_lt hx
  have hpos0 : 0 < els.length := by omega
  constructor
  · have hiter : ∀ k,
        ((fun cur => (Cursor.next_child cur).1)^[k] c).elements_by_root =
          c.elements_by_root ∧
        ((fun cur => (Cursor.next_child cur).1)^[k] c).position =
          (root, (nextInCycle els)^[k] x) := by
      intro k
      induction k with
      | zero => exact ⟨rfl, by rw [Function.iterate_zero_apply, hpos]; rfl⟩
      | succ k ih =>
          rw [Function.iterate_succ_apply', Function.iterate_succ_apply']
          have hstep := next_child_position
            ((fun cur => (Cursor.next_child cur).1)^[k] c) root
            ((nextInCycle els)^[k] x) els (by rw [ih.1]; exact hlook) ih.2
          constructor
          · show ((_ : Cursor × Nat).1).elements_by_root = _
            rw [hstep]
            exact ih.1
          · show ((_ : Cursor × Nat).1).position = _
            rw [hstep]
    have hval : (nextInCycle els)^[els.length] x = x := by
      rw [nextInCycle_iterate els hnd els.length i x hx]
      rw [Nat.add_mod_right, Nat.mod_eq_of_lt hlen]
      rw [List.getD_eq_getElem?_getD, hx]
      rfl
    rw [(hiter els.length).2, hval]
  · have hrx : x ∈ els.reverse := List.mem_reverse.mpr (List.getElem?_mem hx)
    obtain ⟨j, hj⟩ := List.mem_iff_getElem?.mp hrx
    have hndr : els.reverse.Nodup := List.nodup_reverse.mpr hnd
    have hjlen : j < els.reverse.length := getElem?_some_lt hj
    have hiter : ∀ k,
        ((fun cur => (Cursor.prev_child cur).1)^[k] c).elements_by_root =
          c.elements_by_root ∧
        ((fun cur => (Cursor.prev_child cur).1)^[k] c).position =
          (root, (nextInCycle els.reverse)^[k] x) := by
      intro k
      induction k with
      | zero => exact ⟨rfl, by rw [Function.iterate_zero_apply, hpos]; rfl⟩
      | succ k ih =>
          rw [Function.iterate_succ_apply', Function.iterate_succ_apply']
          have hstep := prev_child_position
            ((fun cur => (Cursor.prev_child cur).1)^[k] c) root
            ((nextInCycle els.reverse)^[k] x) els (by rw [ih.1]; exact hlook) ih.2
          rw [prevInCycle_eq_reverse] at hstep
          constructor
          · show ((_ : Cursor × Nat).1).elements_by_root = _
            rw [hstep]
            exact ih.1
          · show ((_ : Cursor × Nat).1).position = _
            rw [hstep]
    have hval : (nextInCycle els.reverse)^[els.length] x = x := by
      have := nextInCycle_iterate els.reverse hndr els.length j x hj
      rw [List.length_reverse] at this hjlen
      rw [this]
      rw [Nat.add_mod_right, Nat.mod_eq_of_lt hjlen]
      rw [List.getD_eq_getElem?_getD]
      rw [hj]
      rfl
    rw [(hiter els.length).2, hval]

/-- Cursor fixture for the C7 witness: one root (10) with members
`[2, 5, 7]`, cursor on member 5. -/
def cursorC7 : Cursor :=
  { elements_by_root := [(10, [2, 5, 7])],
    roots_by_element := [(2, [10]), (5, [10]), (7, [10])],
    roots_tree := { nodes := [10], edges := [] },
    position := (10, 5) }

/-- Witness for C7: three `next_child` calls and three `prev_child` calls
each return the cursor to member 5 of the 3-member root. -/
theorem cyclic_wrap_witness :
    ((fun cur => (Cursor.next_child cur).1)^[3] cursorC7).position = (10, 5) ∧
    ((fun cur => (Cursor.prev_child cur).1)^[3] cursorC7).position = (10, 5) :=
  cyclic_wrap cursorC7 10 5 1 [2, 5, 7] rfl (by decide) rfl rfl

/-! ## C9: the article-filtered traversal is unbounded -/

/-- Graph fixture for C9: both nodes are image files, so no member of the
root classifies as `Article`. -/
def gC9 : AppGraph :=
  { nodes := [mkGN urlPng, mkGN urlPng2], edges := [(0, 1)] }

/-- Cursor fixture for C9: root 0 with members `[0, 1]`, cursor on 0. -/
def cursorC9 : Cursor :=
  { elements_by_root := [(0, [0, 1])],
    roots_by_element := [(0, [0]), (1, [0])],
    roots_tree := { nodes := [0], edges := [] },
    position := (0, 0) }

/-- The same cursor one step on, on member 1. -/
def cursorC9b : Cursor :=
  { elements_by_root := [(0, [0, 1])],
    roots_by_element := [(0, [0]), (1, [0])],
    roots_tree := { nodes := [0], edges := [] },
    position := (0, 1) }

/-- C9 evaluated at the failing input.  The loops of `select_next_article`
and `select_prev_article` never test their iteration count against anything:
on a root whose two members both classify as `File`, no amount of fuel makes
either loop stop — from either starting member — so the callers do NOT cap
the `next_child`/`prev_child` iterations at `members.len()`, and the
traversal diverges whenever no member is an Article. -/
theorem select_article_unbounded :
    ∀ fuel : Nat,
      select_next_article_go gC9 cursorC9 fuel = none ∧
      select_next_article_go gC9 cursorC9b fuel = none ∧
      select_prev_article_go gC9 cursorC9 fuel = none ∧
      select_prev_article_go gC9 cursorC9b fuel = none := by
  intro fuel
  induction fuel with
  | zero => exact ⟨rfl, rfl, rfl, rfl⟩
  | succ fuel ih =>
      refine ⟨?_, ?_, ?_, ?_⟩
      · rw [show select_next_article_go gC9 cursorC9 (fuel + 1) =
            select_next_article_go gC9 cursorC9b fuel from rfl]
        exact ih.2.1
      · rw [show select_next_article_go gC9 cursorC9b (fuel + 1) =
            select_next_article_go gC9 cursorC9 fuel from rfl]
        exact ih.1
      · rw [show select_prev_article_go gC9 cursorC9 (fuel + 1) =
            select_prev_article_go gC9 cursorC9b fuel from rfl]
        exact ih.2.2.2
      · rw [show select_prev_article_go gC9 cursorC9b (fuel + 1) =
            select_prev_article_go gC9 cursorC9 fuel from rfl]
        exact ih.2.2.1

/-! ## C1: node dedup holds, edge idempotence fails -/

theorem alistLookup_cons {α β : Type} [DecidableEq α] (p : α × β)
    (rest : List (α × β)) (k : α) :
    alistLookup (p :: rest) k =
      if p.1 = k then some p.2 else alistLookup rest k := rfl

theorem alistLookup_append_some {α β : Type} [DecidableEq α]
    {m : List (α × β)} {k : α} {v : β} (l : List (α × β))
    (h : alistLookup m k = some v) :
    alistLookup (m ++ l) k = some v := by
  induction m with
  | nil => cases h
  | cons p rest ih =>
      rw [alistLookup_cons] at h
      rw [List.cons_append, alistLookup_cons]
      by_cases hp : p.1 = k
      · rw [if_pos hp] at h ⊢
        exact h
      · rw [if_neg hp] at h ⊢
        exact ih h

theorem alistLookup_append_none {α β : Type} [DecidableEq α]
    {m : List (α × β)} {k : α} (l : List (α × β))
    (h : alistLookup m k = none) :
    alistLookup (m ++ l) k = alistLookup l k := by
  induction m with
  | nil => rfl
  | cons p rest ih =>
      rw [alistLookup_cons] at h
      rw [List.cons_append, alistLookup_cons]
      by_cases hp : p.1 = k
      · rw [if_pos hp] at h
        cases h
      · rw [if_neg hp] at h ⊢
        exact ih h

theorem alistLookup_none_not_any {α β : Type} [DecidableEq α]
    {m : List (α × β)} {k : α} (h : alistLookup m k = none) :
    m.any (fun p => decide (p.1 = k)) = false := by
  induction m with
  | nil => rfl
  | cons p rest ih =>
      rw [alistLookup_cons] at h
      by_cases hp : p.1 = k
      · rw [if_pos hp] at h
        cases h
      · rw [if_neg hp] at h
        simp [List.any_cons, hp, ih h]

/-- Equation for the known-URL arm of `okStep`: only the two edge lists
grow. -/
theorem okStep_some_eq (offs : Nat → Int × Int) (parent : Nat) (url : Url)
    (st : GraphSideState) (idx : Nat)
    (hlook : alistLookup st.node_by_url url = some idx) :
    okStep offs parent url st =
      { g := { nodes := st.g.nodes, edges := st.g.edges ++ [(parent, idx)] },
        sim := { nodes := st.sim.nodes, edges := st.sim.edges ++ [(parent, idx)] },
        node_by_url := st.node_by_url,
        rngCalls := st.rngCalls } := by
  unfold okStep
  rw [hlook]
  rfl

/-- Equation for the fresh-URL arm of `okStep`: one node is appended to each
graph, the URL is indexed at the sim index, and one edge is appended to each
edge list. -/
theorem okStep_none_eq (offs : Nat → Int × Int) (parent : Nat) (url : Url)
    (st : GraphSideState)
    (hlook : alistLookup st.node_by_url url = none) :
    okStep offs parent url st =
      { g := { nodes := st.g.nodes ++
                 [{ payload := url,
                    location := ((st.g.nodes.getD parent dummyGNode).location.1 +
                        (offs st.rngCalls).1,
                      (st.g.nodes.getD parent dummyGNode).location.2 +
                        (offs st.rngCalls).2),
                    selected := false, dragged := false }],
               edges := st.g.edges ++ [(parent, st.sim.nodes.length)] },
        sim := { nodes := st.sim.nodes ++
                   [{ name := toString st.g.nodes.length,
                      location := ((st.g.nodes.getD parent dummyGNode).location.1 +
                          (offs st.rngCalls).1,
                        (st.g.nodes.getD parent dummyGNode).location.2 +
                          (offs st.rngCalls).2, 0) }],
                 edges := st.sim.edges ++ [(parent, st.sim.nodes.length)] },
        node_by_url := alistInsert st.node_by_url url st.sim.nodes.length,
        rngCalls := st.rngCalls + 1 } := by
  unfold okStep
  rw [hlook]
  rfl

/-- The graph/URL-index invariant the engine maintains: the egui graph and
the sim graph hold the same number of nodes (so the two indices `add_node`
works with agree), every URL-index binding points at an in-range node
carrying exactly that URL, and every node's URL is indexed back to its own
index. -/
@[reducible]
def GraphMapWF (st : GraphSideState) : Prop :=
  st.g.nodes.length = st.sim.nodes.length ∧
  (∀ p ∈ st.node_by_url, p.2 < st.g.nodes.length ∧
      (st.g.nodes.getD p.2 dummyGNode).payload = p.1) ∧
  (∀ i ∈ List.range st.g.nodes.length,
      alistLookup st.node_by_url ((st.g.nodes.getD i dummyGNode).payload) = some i)

theorem okStep_wf (offs : Nat → Int × Int) (parent : Nat) (url : Url)
    (st : GraphSideState) (h : GraphMapWF st) :
    GraphMapWF (okStep offs parent url st) := by
  rcases h with ⟨h1, h2, h3⟩
  cases hlook : alistLookup st.node_by_url url with
  | some idx =>
      rw [okStep_some_eq offs parent url st idx hlook]
      exact ⟨h1, h2, h3⟩
  | none =>
      have hins : alistInsert st.node_by_url url st.sim.nodes.length =
          st.node_by_url ++ [(url, st.sim.nodes.length)] := by
        unfold alistInsert
        rw [alistLookup_none_not_any hlook]
        rfl
      rw [okStep_none_eq offs parent url st hlook]
      refine ⟨?_, ?_, ?_⟩
      · simp only [List.length_append, List.length_singleton]
        omega
      · rw [hins]
        intro p hp
        simp only [List.length_append, List.length_singleton]
        rcases List.mem_append.mp hp with hold | hnew
        · rcases h2 p hold with ⟨hlt, hpay⟩
          refine ⟨by omega, ?_⟩
          rw [List.getD_append _ _ _ _ hlt]
          exact hpay
        · have hpv : p = (url, st.sim.nodes.length) := by simpa using hnew
          subst hpv
          refine ⟨by omega, ?_⟩
          rw [List.getD_eq_getElem?_getD, ← h1, List.getElem?_concat_length]
          rfl
      · rw [hins]
        intro i hi
        simp only [List.length_append, List.length_singleton] at hi
        have hilt : i < st.g.nodes.length + 1 := List.mem_range.mp hi
        by_cases hcase : i < st.g.nodes.length
        · rw [List.getD_append _ _ _ _ hcase]
          exact alistLookup_append_some _ (h3 i (List.mem_range.mpr hcase))
        · have hieq : i = st.g.nodes.length := by omega
          subst hieq
          dsimp only
          rw [List.getD_eq_getElem?_getD, List.getElem?_concat_length]
          show alistLookup (st.node_by_url ++ [(url, st.sim.nodes.length)]) url =
            some st.g.nodes.length
          rw [alistLookup_append_none _ hlook]
          rw [alistLookup_cons]
          rw [if_pos rfl]
          rw [h1]

theorem wf_payload_nodup (st : GraphSideState) (h : GraphMapWF st) :
    (st.g.nodes.map (fun n => n.payload)).Nodup := by
  rcases h with ⟨-, -, h3⟩
  rw [List.nodup_iff_getElem?_ne_getElem?]
  intro i j hij hjlen heq
  rw [List.length_map] at hjlen
  have hilt : i < st.g.nodes.length := by omega
  have hi2 : (st.g.nodes.map (fun n => n.payload))[i]? =
      some ((st.g.nodes.getD i dummyGNode).payload) := by
    rw [List.getElem?_map, List.getD_eq_getElem?_getD,
      List.getElem?_eq_getElem hilt]
    rfl
  have hj2 : (st.g.nodes.map (fun n => n.payload))[j]? =
      some ((st.g.nodes.getD j dummyGNode).payload) := by
    rw [List.getElem?_map, List.getD_eq_getElem?_getD,
      List.getElem?_eq_getElem hjlen]
    rfl
  rw [hi2, hj2] at heq
  have hpay : (st.g.nodes.getD i dummyGNode).payload =
      (st.g.nodes.getD j dummyGNode).payload := by
    injection heq
  have hli := h3 i (List.mem_range.mpr hilt)
  have hlj := h3 j (List.mem_range.mpr hjlen)
  rw [hpay] at hli
  rw [hli] at hlj
  injection hlj with hij2
  omega

/-- C1 (amended).  Deduplicating upsert, node half: processing any sequence
of `Ok(link)` discovery results against a well-formed graph keeps it
well-formed and yields pairwise-distinct node URLs — at most one node per
distinct link value, because the URL index is consulted before any node is
created.  (The edge half of the claim is false: see the counterexample — a
repeated discovery appends a parallel edge rather than being a no-op.) -/
theorem upsert_node_dedup (offs : Nat → Int × Int) (st : GraphSideState)
    (seq : List (Nat × Url)) (h : GraphMapWF st) :
    GraphMapWF (seq.foldl (fun acc e => okStep offs e.1 e.2 acc) st) ∧
    (((seq.foldl (fun acc e => okStep offs e.1 e.2 acc) st).g.nodes.map
        (fun n => n.payload)).Nodup) := by
  have hwf : GraphMapWF (seq.foldl (fun acc e => okStep offs e.1 e.2 acc) st) := by
    induction seq generalizing st with
    | nil => exact h
    | cons e rest ih => exact ih _ (okStep_wf offs e.1 e.2 st h)
  exact ⟨hwf, wf_payload_nodup _ hwf⟩

/-- The RNG stream fixture used by the C1 theorems. -/
def offsC1 : Nat → Int × Int := fun _ => (0, 0)

/-- C1 fixture: a well-formed one-node graph (the root `urlA`, indexed). -/
def stC1 : GraphSideState :=
  { g := { nodes := [mkGN urlA], edges := [] },
    sim := { nodes := [mkSN "0"], edges := [] },
    node_by_url := [(urlA, 0)],
    rngCalls := 0 }

/-- Counterexample to C1 as stated: the same parent-to-child discovery
`(0, urlB)` arriving twice leaves TWO `(0, 1)` edges in the graph — edge
insertion is a plain petgraph append, not an idempotent upsert, so "at most
one edge per ordered pair" and "re-adding an existing edge is a no-op" are
both false (the node is still created only once). -/
theorem upsert_duplicate_edge_counterexample :
    (([((0 : Nat), urlB), (0, urlB)]).foldl
        (fun acc e => okStep offsC1 e.1 e.2 acc) stC1).g.edges.count (0, 1) = 2 ∧
    (([((0 : Nat), urlB), (0, urlB)]).foldl
        (fun acc e => okStep offsC1 e.1 e.2 acc) stC1).g.nodes.length = 2 := by
  decide

/-- Witness for C1 (amended): the fixture is well-formed, and after the
discovery sequence `[(0, urlB), (0, urlB), (0, urlA)]` the node URLs are
still pairwise distinct (urlB got exactly one node despite two
discoveries). -/
theorem upsert_node_dedup_witness :
    GraphMapWF stC1 ∧
    ((([((0 : Nat), urlB), (0, urlB), (0, urlA)]).foldl
        (fun acc e => okStep offsC1 e.1 e.2 acc) stC1).g.nodes.map
      (fun n => n.payload)).Nodup :=
  ⟨by decide,
    (upsert_node_dedup offsC1 stC1 [(0, urlB), (0, urlB), (0, urlA)] (by decide)).2⟩

/-! ## C3: one `try_recv` per record per tick, not a full drain -/

/-- What one poll does to a record: consume (at most) the channel head. -/
def consumeHead (e : Nat × TaskRecord) : Nat × TaskRecord :=
  (e.1, { e.2 with channel := e.2.channel.tail })

/-- A record the poll observes as finished: empty channel and finished
handle. -/
def taskDone (e : Nat × TaskRecord) : Bool :=
  e.2.channel.isEmpty && e.2.finished

/-- The discoveries one poll consumes: per record, the channel head when it
is an `Ok`, tagged with the record's node index (the parent). -/
def consumedOks (tasks : List (Nat × TaskRecord)) : List (Nat × Url) :=
  tasks.filterMap (fun e =>
    match e.2.channel with
    | Except.ok url :: _ => some (e.1, url)
    | _ => none)

theorem drain_spec (offs : Nat → Int × Int) :
    ∀ (tasks : List (Nat × TaskRecord)) (d : Drained),
      (tasks.foldl (drainStep offs) d).st =
        (consumedOks tasks).foldl (fun acc e => okStep offs e.1 e.2 acc) d.st ∧
      (tasks.foldl (drainStep offs) d).tasks =
        d.tasks ++ tasks.map consumeHead ∧
      (tasks.foldl (drainStep offs) d).finished =
        d.finished ++ (tasks.filter taskDone).map Prod.fst := by
  intro tasks
  induction tasks with
  | nil =>
      intro d
      exact ⟨rfl, (List.append_nil d.tasks).symm, (List.append_nil d.finished).symm⟩
  | cons e rest ih =>
      intro d
      obtain ⟨i, rec⟩ := e
      obtain ⟨ch, fin, fau⟩ := rec
      cases ch with
      | nil =>
          cases fin with
          | true =>
              rw [List.foldl_cons]
              have hstep : drainStep offs d (i, ⟨[], true, fau⟩) =
                  { d with tasks := d.tasks ++ [(i, ⟨[], true, fau⟩)],
                           finished := d.finished ++ [i] } := rfl
              rw [hstep]
              obtain ⟨ih1, ih2, ih3⟩ := ih
                { d with tasks := d.tasks ++ [(i, ⟨[], true, fau⟩)],
                         finished := d.finished ++ [i] }
              refine ⟨?_, ?_, ?_⟩
              · rw [ih1]
                rfl
              · rw [ih2, List.append_assoc]
                rfl
              · rw [ih3, List.append_assoc]
                rfl
          | false =>
              rw [List.foldl_cons]
              have hstep : drainStep offs d (i, ⟨[], false, fau⟩) =
                  { d with tasks := d.tasks ++ [(i, ⟨[], false, fau⟩)] } := rfl
              rw [hstep]
              obtain ⟨ih1, ih2, ih3⟩ := ih
                { d with tasks := d.tasks ++ [(i, ⟨[], false, fau⟩)] }
              refine ⟨?_, ?_, ?_⟩
              · rw [ih1]
                rfl
              · rw [ih2, List.append_assoc]
                rfl
              · rw [ih3]
                rfl
      | cons item chrest =>
          cases item with
          | ok url =>
              rw [List.foldl_cons]
              have hstep : drainStep offs d (i, ⟨Except.ok url :: chrest, fin, fau⟩) =
                  { d with st := okStep offs i url d.st,
                           tasks := d.tasks ++ [(i, ⟨chrest, fin, fau⟩)] } := rfl
              rw [hstep]
              obtain ⟨ih1, ih2, ih3⟩ := ih
                { d with st := okStep offs i url d.st,
                         tasks := d.tasks ++ [(i, ⟨chrest, fin, fau⟩)] }
              refine ⟨?_, ?_, ?_⟩
              · rw [ih1]
                rfl
              · rw [ih2, List.append_assoc]
                rfl
              · rw [ih3]
                rfl
          | error msg =>
              rw [List.foldl_cons]
              have hstep : drainStep offs d (i, ⟨Except.error msg :: chrest, fin, fau⟩) =
                  { d with tasks := d.tasks ++ [(i, ⟨chrest, fin, fau⟩)] } := rfl
              rw [hstep]
              obtain ⟨ih1, ih2, ih3⟩ := ih
                { d with tasks := d.tasks ++ [(i, ⟨chrest, fin, fau⟩)] }
              refine ⟨?_, ?_, ?_⟩
              · rw [ih1]
                rfl
              · rw [ih2, List.append_assoc]
                rfl
              · rw [ih3]
                rfl

theorem foldl_alistRemove {β : Type} (ks : List Nat) (m : List (Nat × β)) :
    ks.foldl alistRemove m = m.filter (fun p => !(ks.contains p.1)) := by
  induction ks generalizing m with
  | nil => simp
  | cons k ks ih =>
      rw [List.foldl_cons, ih]
      unfold alistRemove
      rw [List.filter_filter]
      apply List.filter_congr
      intro p _
      by_cases hpk : p.1 = k
      · simp [hpk]
      · simp [hpk]

theorem removal_filter_spec (tasks : List (Nat × TaskRecord))
    (hnd : (tasks.map Prod.fst).Nodup) :
    (tasks.map consumeHead).filter
        (fun p => !(((tasks.filter taskDone).map Prod.fst).contains p.1)) =
      (tasks.filter (fun e => !taskDone e)).map consumeHead := by
  induction tasks with
  | nil => rfl
  | cons e rest ih =>
      rw [List.map_cons, List.nodup_cons] at hnd
      obtain ⟨hkey, hrest⟩ := hnd
      have hkeys : ∀ p ∈ rest.map consumeHead, p.1 ≠ e.1 := by
        intro p hp hcontra
        obtain ⟨q, hq, hpq⟩ := List.mem_map.mp hp
        apply hkey
        rw [← hcontra, ← hpq]
        exact List.mem_map.mpr ⟨q, hq, rfl⟩
      cases htd : taskDone e with
      | true =>
          have hfk : ((e :: rest).filter taskDone).map Prod.fst =
              e.1 :: (rest.filter taskDone).map Prod.fst := by
            rw [List.filter_cons, if_pos (by simp [htd])]
            rfl
          rw [List.map_cons, hfk, List.filter_cons]
          rw [if_neg (by simp [consumeHead])]
          have hcongr : (rest.map consumeHead).filter
              (fun p => !((e.1 :: (rest.filter taskDone).map Prod.fst).contains p.1)) =
              (rest.map consumeHead).filter
                (fun p => !(((rest.filter taskDone).map Prod.fst).contains p.1)) := by
            apply List.filter_congr
            intro p hp
            simp [List.contains_cons, hkeys p hp]
          rw [hcongr, ih hrest, List.filter_cons]
          rw [if_neg (by simp [htd])]
      | false =>
          have hfk : ((e :: rest).filter taskDone).map Prod.fst =
              (rest.filter taskDone).map Prod.fst := by
            rw [List.filter_cons, if_neg (by simp [htd])]
          rw [List.map_cons, hfk, List.filter_cons]
          have hfsub : e.1 ∉ (rest.filter taskDone).map Prod.fst := by
            intro hcontra
            apply hkey
            have hsub : rest.filter taskDone ⊆ rest :=
              fun x hx => (List.mem_filter.mp hx).1
            exact List.map_subset Prod.fst hsub hcontra
          rw [if_pos (by simp [consumeHead, hfsub])]
          rw [ih hrest]
          have hrhs : (e :: rest).filter (fun x => !taskDone x) =
              e :: rest.filter (fun x => !taskDone x) := by
            rw [List.filter_cons, if_pos (by simp [htd])]
          rw [hrhs, List.map_cons]

/-- C3 (amended).  What one `process_active_tasks` call actually does: for
every active record exactly the channel head (if any) is consumed — a record
with further queued outcomes keeps them for later ticks, so the per-tick poll
is a single `try_recv` per record, not a full drain.  Each consumed
`Ok(link)` performs exactly one child-upsert with the record's node index as
the parent (in record order), each consumed `Err` leaves the graph side
untouched (it is only logged), and a record is removed precisely when its
channel was observed empty and its handle finished.  The call never reports
an error. -/
theorem process_active_tasks_per_tick (offs : Nat → Int × Int) (s : App)
    (hnd : (s.active_tasks.map Prod.fst).Nodup) :
    (process_active_tasks offs s).1.active_tasks =
      (s.active_tasks.filter (fun e => !taskDone e)).map consumeHead ∧
    (process_active_tasks offs s).1.g =
      ((consumedOks s.active_tasks).foldl (fun acc e => okStep offs e.1 e.2 acc)
        { g := s.g, sim := s.sim, node_by_url := s.node_by_url, rngCalls := 0 }).g ∧
    (process_active_tasks offs s).1.sim =
      ((consumedOks s.active_tasks).foldl (fun acc e => okStep offs e.1 e.2 acc)
        { g := s.g, sim := s.sim, node_by_url := s.node_by_url, rngCalls := 0 }).sim ∧
    (process_active_tasks offs s).1.node_by_url =
      ((consumedOks s.active_tasks).foldl (fun acc e => okStep offs e.1 e.2 acc)
        { g := s.g, sim := s.sim, node_by_url := s.node_by_url, rngCalls := 0 }).node_by_url ∧
    (process_active_tasks offs s).2 = none := by
  obtain ⟨h1, h2, h3⟩ := drain_spec offs s.active_tasks
    { st := { g := s.g, sim := s.sim, node_by_url := s.node_by_url, rngCalls := 0 },
      tasks := [], finished := [] }
  refine ⟨?_, ?_, ?_, ?_, rfl⟩
  · show (s.active_tasks.foldl (drainStep offs)
        { st := { g := s.g, sim := s.sim, node_by_url := s.node_by_url, rngCalls := 0 },
          tasks := [], finished := [] }).finished.foldl alistRemove
      (s.active_tasks.foldl (drainStep offs)
        { st := { g := s.g, sim := s.sim, node_by_url := s.node_by_url, rngCalls := 0 },
          tasks := [], finished := [] }).tasks = _
    rw [h2, h3, List.nil_append, List.nil_append]
    rw [foldl_alistRemove]
    exact removal_filter_spec s.active_tasks hnd
  · show (s.active_tasks.foldl (drainStep offs)
        { st := { g := s.g, sim := s.sim, node_by_url := s.node_by_url, rngCalls := 0 },
          tasks := [], finished := [] }).st.g = _
    rw [h1]
  · show (s.active_tasks.foldl (drainStep offs)
        { st := { g := s.g, sim := s.sim, node_by_url := s.node_by_url, rngCalls := 0 },
          tasks := [], finished := [] }).st.sim = _
    rw [h1]
  · show (s.active_tasks.foldl (drainStep offs)
        { st := { g := s.g, sim := s.sim, node_by_url := s.node_by_url, rngCalls := 0 },
          tasks := [], finished := [] }).st.node_by_url = _
    rw [h1]

/-- The RNG stream fixture used by the C3 theorems. -/
def offsC3 : Nat → Int × Int := fun _ => (0, 0)

/-- App fixture for C3: one active record with TWO discoveries already queued
in its channel. -/
def appC3 : App :=
  { root_article_url := "",
    state := State.GraphAndLoading,
    active_tasks :=
      [(0, { channel := [Except.ok urlB, Except.ok urlC],
             finished := false, faulted := false })],
    g := { nodes := [mkGN urlA], edges := [] },
    sim := { nodes := [mkSN "0"], edges := [] },
    selected_node := none,
    node_by_url := [(urlA, 0)] }

/-- Counterexample to C3 as stated: with two outcomes available in the
record's channel, one `process_active_tasks` call consumes only the first —
the second (`Ok urlC`) is still queued afterwards and only one node was
upserted — so NOT every currently-available outcome is consumed in the same
call. -/
theorem process_partial_drain_counterexample :
    (process_active_tasks offsC3 appC3).1.active_tasks =
      [(0, { channel := [Except.ok urlC], finished := false, faulted := false })] ∧
    (process_active_tasks offsC3 appC3).1.g.nodes.length = 2 := by
  decide

/-- Witness for C3 (amended) at the concrete two-outcome fixture. -/
theorem process_active_tasks_per_tick_witness :
    (process_active_tasks offsC3 appC3).1.active_tasks =
      (appC3.active_tasks.filter (fun e => !taskDone e)).map consumeHead ∧
    (process_active_tasks offsC3 appC3).1.g =
      ((consumedOks appC3.active_tasks).foldl
        (fun acc e => okStep offsC3 e.1 e.2 acc)
        { g := appC3.g, sim := appC3.sim, node_by_url := appC3.node_by_url,
          rngCalls := 0 }).g ∧
    (process_active_tasks offsC3 appC3).1.sim =
      ((consumedOks appC3.active_tasks).foldl
        (fun acc e => okStep offsC3 e.1 e.2 acc)
        { g := appC3.g, sim := appC3.sim, node_by_url := appC3.node_by_url,
          rngCalls := 0 }).sim ∧
    (process_active_tasks offsC3 appC3).1.node_by_url =
      ((consumedOks appC3.active_tasks).foldl
        (fun acc e => okStep offsC3 e.1 e.2 acc)
        { g := appC3.g, sim := appC3.sim, node_by_url := appC3.node_by_url,
          rngCalls := 0 }).node_by_url ∧
    (process_active_tasks offsC3 appC3).2 = none :=
  process_active_tasks_per_tick offsC3 appC3 (by decide)

end Wikilinks
